import Mathlib

/-!
Verification of the Deep Intelligence PostgreSQL external-source connector.

The definitions below are a shallow embedding of the TypeScript sources of the
repository: `src/utils/deepint-sources.ts` (filter sanitization, type
coercion, compilation of filters to SQL conditions), `src/utils/text.ts`
(placeholder numbering for pg) and `src/source.ts` (ingestion, the per-source
worker loop, query execution, nominal values).

JavaScript host behaviour that the program relies on but does not itself
define (number formatting and parsing, date parsing and formatting) is
abstracted as a `Host` structure; theorems quantify over all hosts, so no
property proved here depends on a particular choice.  JavaScript numbers are
modelled as rationals, with `NaN` as a separate value; strings are modelled
as Lean strings (character counted, where the source counts UTF-16 units).
-/

/-- JavaScript primitives supplied by the runtime, abstracted.
`parseNum s = none` models `Number(s)` being `NaN`;
`parseDate s = none` models `new Date(s)` being an invalid date
(so its `toISOString` throws); `dateFromNum` likewise. -/
structure Host where
  parseNum : String → Option ℚ
  parseDate : String → Option Int
  dateFromNum : ℚ → Option Int
  showNum : ℚ → String
  showDate : Int → String

/-- JavaScript values as far as this program observes them.  An object is
recorded by the five properties the sanitizer reads (`type`, `operation`,
`left`, `right`, `children`); every other property is never accessed.
`vdate t` is a valid `Date` whose time value is `t` milliseconds. -/
inductive JSVal where
  | vnull
  | vundefined
  | vbool (b : Bool)
  | vnum (q : ℚ)
  | vnan
  | vstr (s : String)
  | vdate (t : Int)
  | varr (elems : List JSVal)
  | vobj (pty pop pleft pright pchildren : JSVal)

mutual

/-- JavaScript string coercion `"" + v`. -/
def jsToStr (H : Host) : JSVal → String
  | .vnull => "null"
  | .vundefined => "undefined"
  | .vbool b => if b then "true" else "false"
  | .vnum q => H.showNum q
  | .vnan => "NaN"
  | .vstr s => s
  | .vdate t => H.showDate t
  | .varr xs => jsToStrList H xs
  | .vobj _ _ _ _ _ => "[object Object]"

/-- Model of `Array.prototype.toString` = `join(",")`; `null` and `undefined`
elements render as the empty string. -/
def jsToStrList (H : Host) : List JSVal → String
  | [] => ""
  | [x] => jsToStrElem H x
  | x :: y :: rest => jsToStrElem H x ++ "," ++ jsToStrList H (y :: rest)

/-- One element of an array under `join`. -/
def jsToStrElem (H : Host) : JSVal → String
  | .vnull => ""
  | .vundefined => ""
  | v => jsToStr H v

end

/-- JavaScript truthiness `!!v`. -/
def jsTruthy : JSVal → Bool
  | .vnull => false
  | .vundefined => false
  | .vbool b => b
  | .vnum q => decide (q ≠ 0)
  | .vnan => false
  | .vstr s => decide (s ≠ "")
  | .vdate _ => true
  | .varr _ => true
  | .vobj _ _ _ _ _ => true

/-- JavaScript strict equality `v === s` against a string literal: only a
string can be strictly equal to a string. -/
def jsStrictEqStr : JSVal → String → Bool
  | .vstr t, s => decide (t = s)
  | _, _ => false

/-- JavaScript `Number(v)`; `none` is `NaN`.  Arrays and objects convert via
their string form (`ToPrimitive`). -/
def jsToNumber (H : Host) : JSVal → Option ℚ
  | .vnull => some 0
  | .vundefined => none
  | .vbool b => some (if b then 1 else 0)
  | .vnum q => some q
  | .vnan => none
  | .vstr s => H.parseNum s
  | .vdate t => some (t : ℚ)
  | .varr xs => H.parseNum (jsToStr H (.varr xs))
  | .vobj a b c d e => H.parseNum (jsToStr H (.vobj a b c d e))

/-- JavaScript `new Date(v)`, returning the time value; `none` is an invalid
date (one whose `toISOString()` throws).  Constructing from an existing
`Date` copies its time value. -/
def jsNewDate (H : Host) : JSVal → Option Int
  | .vnull => some 0
  | .vundefined => none
  | .vbool b => H.dateFromNum (if b then 1 else 0)
  | .vnum q => H.dateFromNum q
  | .vnan => none
  | .vstr s => H.parseDate s
  | .vdate t => some t
  | .varr xs => H.parseDate (jsToStr H (.varr xs))
  | .vobj a b c d e => H.parseDate (jsToStr H (.vobj a b c d e))

/-- JavaScript `s.substr(0, n)` (character counted). -/
def jsSubstr (s : String) (n : Nat) : String := ⟨s.data.take n⟩

/-- JavaScript `s.toLowerCase()` (ASCII-faithful). -/
def jsToLower (s : String) : String := ⟨s.data.map Char.toLower⟩

/-- The five field types of `deepint-sources.ts`. -/
inductive FeatureType where
  | nominal | text | numeric | logic | date
deriving DecidableEq

/-- Embedding of `turnInto(data, type)` of `deepint-sources.ts`: coercion of a raw value
to the in-memory representation of a field type.  The `text` case is the
`default` branch of the source's `switch`. -/
def turnInto (H : Host) (data : JSVal) (ftype : FeatureType) : JSVal :=
  match data with
  | .vnull => .vnull
  | .vundefined => .vnull
  | _ =>
    match ftype with
    | .nominal => .vstr (jsSubstr (jsToStr H data) 255)
    | .date =>
        match jsNewDate H data with
        | some t => .vdate t
        | none => .vdate 0
    | .numeric =>
        match jsToNumber H data with
        | none => .vnull
        | some n => .vnum n
    | .logic =>
        if jsStrictEqStr data "true" || jsStrictEqStr data "1" then .vbool true
        else if jsStrictEqStr data "false" || jsStrictEqStr data "0" then .vbool false
        else .vbool (jsTruthy data)
    | .text => .vstr (jsToStr H data)

/-- C9: coercion is idempotent, for every host, raw value and field type. -/
theorem turnInto_idempotent (H : Host) (x : JSVal) (T : FeatureType) :
    turnInto H (turnInto H x T) T = turnInto H x T := by
  have hnom : ∀ s : String,
      JSVal.vstr (jsSubstr (jsSubstr s 255) 255) = JSVal.vstr (jsSubstr s 255) := by
    intro s; simp [jsSubstr, List.take_take]
  have hnum : ∀ o : Option ℚ,
      turnInto H (match o with | none => JSVal.vnull | some n => JSVal.vnum n) .numeric
        = (match o with | none => JSVal.vnull | some n => JSVal.vnum n) := by
    intro o; cases o <;> rfl
  have hdate : ∀ o : Option Int,
      turnInto H (match o with | some t => JSVal.vdate t | none => JSVal.vdate 0) .date
        = (match o with | some t => JSVal.vdate t | none => JSVal.vdate 0) := by
    intro o; cases o <;> rfl
  have hlog : ∀ b : Bool, turnInto H (JSVal.vbool b) .logic = JSVal.vbool b := by
    intro b; cases b <;> rfl
  have hlogShape : ∀ v : JSVal,
      turnInto H v .logic = .vnull ∨ ∃ b, turnInto H v .logic = .vbool b := by
    intro v
    cases v
    case vnull => exact Or.inl rfl
    case vundefined => exact Or.inl rfl
    all_goals
      refine Or.inr ?_
      simp only [turnInto]
      split_ifs <;> exact ⟨_, rfl⟩
  cases T with
  | nominal =>
    clear hnum hdate hlog hlogShape
    cases x <;> simp [turnInto, jsToStr, jsSubstr, List.take_take]
  | text =>
    clear hnum hdate hlog hlogShape
    cases x <;> simp [turnInto, jsToStr]
  | numeric =>
    cases x
    case vstr s => exact hnum (H.parseNum s)
    case varr xs => exact hnum (H.parseNum (jsToStr H (.varr xs)))
    case vobj a b c d e => exact hnum (H.parseNum (jsToStr H (.vobj a b c d e)))
    all_goals rfl
  | logic =>
    rcases hlogShape x with h | ⟨b, h⟩
    · rw [h]; rfl
    · rw [h]; exact hlog b
  | date =>
    cases x
    case vbool b => exact hdate (H.dateFromNum (if b then 1 else 0))
    case vnum q => exact hdate (H.dateFromNum q)
    case vstr s => exact hdate (H.parseDate s)
    case varr xs => exact hdate (H.parseDate (jsToStr H (.varr xs)))
    case vobj a b c d e => exact hdate (H.parseDate (jsToStr H (.vobj a b c d e)))
    all_goals rfl

/-! ## Filter trees and SQL compilation (`deepint-sources.ts`) -/

/-- A configured field (`Feature` of `deepint-sources.ts`). -/
structure Feature where
  index : Nat
  type : FeatureType
  name : String

/-- A sanitized filter tree (`QueryTree` of `deepint-sources.ts`).
`right : Option String` models the source's string-or-null `right`. -/
inductive QueryTree where
  | mk (qtype : String) (operation : String) (left : Int) (right : Option String)
      (children : List QueryTree)

/-- Model of `text.replace(/c/g, rep)`: global single-character replacement. -/
def replAll (c : Char) (rep : List Char) : List Char → List Char
  | [] => []
  | x :: xs => if x = c then rep ++ replAll c rep xs else x :: replAll c rep xs

/-- Embedding of `replaceWildcards`: the two global replaces of the source,
`%` → `\%` first, then `_` → `\_`. -/
def replaceWildcards (text : String) : String :=
  ⟨replAll '_' ['\\', '_'] (replAll '%' ['\\', '%'] text.data)⟩

/-- The `contains` pattern `"%" + replaceWildcards(x) + "%"`. -/
def cnPattern (s : String) : String := "%" ++ replaceWildcards s ++ "%"

/-- The `startsWith` pattern `"" + replaceWildcards(x) + "%"`. -/
def swPattern (s : String) : String := replaceWildcards s ++ "%"

/-- The `endsWith` pattern `"%" + replaceWildcards(x) + ""`. -/
def ewPattern (s : String) : String := "%" ++ replaceWildcards s

/-- A compiled condition (`SQLCondition` of `deepint-sources.ts`). -/
structure SQLCondition where
  sql : String
  params : List JSVal

/-- JavaScript array indexing `arr[i]`: `none` is `undefined`
(negative or out-of-range index). -/
def jsIndex {α : Type} (l : List α) (i : Int) : Option α :=
  if i < 0 then none else l.get? i.toNat

/-- One iteration of the child-joining loop shared by the `anyof` / `allof` /
`not` cases of `toSQLCondition`: children compiling to an empty fragment are
skipped; the first kept child starts the fragment, later ones are prefixed
with the separator; parameters of kept children are appended in order.
`acc.sql = ""` is exactly the loop's `fistQuery` flag, since a kept child
always contributes a fragment starting with `(`. -/
def joinStep (sep : String) (acc c : SQLCondition) : SQLCondition :=
  if c.sql = "" then acc
  else if acc.sql = "" then ⟨"(" ++ c.sql ++ ")", acc.params ++ c.params⟩
  else ⟨acc.sql ++ sep ++ "(" ++ c.sql ++ ")", acc.params ++ c.params⟩

/-- The whole child-joining loop. -/
def joinConds (sep : String) (cs : List SQLCondition) : SQLCondition :=
  cs.foldl (joinStep sep) ⟨"", []⟩

/-- The `default` (leaf) branch of `toSQLCondition`'s `switch`: a comparison
or match on one feature.  Returns the empty condition when the literal is
`null` for an operation other than `null`, when the feature index is
invalid, or when the operation is unknown. -/
def leafCondition (H : Host) (features : List Feature) (operation : String)
    (left : Int) (right : Option String) : SQLCondition :=
  if operation ≠ "null" ∧ right = none then ⟨"", []⟩
  else
    match jsIndex features left with
    | none => ⟨"", []⟩
    | some feature =>
      let cmp := turnInto H (match right with | none => .vnull | some s => .vstr s)
        feature.type
      if operation = "null" then ⟨"\"" ++ feature.name ++ "\" IS NULL", []⟩
      else if operation = "eq" then ⟨"\"" ++ feature.name ++ "\" = ?", [cmp]⟩
      else if operation = "lt" then ⟨"\"" ++ feature.name ++ "\" < ?", [cmp]⟩
      else if operation = "le" ∨ operation = "lte" then
        ⟨"\"" ++ feature.name ++ "\" <= ?", [cmp]⟩
      else if operation = "gt" then ⟨"\"" ++ feature.name ++ "\" > ?", [cmp]⟩
      else if operation = "ge" ∨ operation = "gte" then
        ⟨"\"" ++ feature.name ++ "\" >= ?", [cmp]⟩
      else if operation = "cn" then
        ⟨"\"" ++ feature.name ++ "\" LIKE ?", [.vstr (cnPattern (jsToStr H cmp))]⟩
      else if operation = "cni" then
        ⟨"LOWER(\"" ++ feature.name ++ "\") LIKE LOWER(?)",
          [.vstr (cnPattern (jsToStr H cmp))]⟩
      else if operation = "sw" then
        ⟨"\"" ++ feature.name ++ "\" LIKE ?", [.vstr (swPattern (jsToStr H cmp))]⟩
      else if operation = "swi" then
        ⟨"LOWER(\"" ++ feature.name ++ "\") LIKE LOWER(?)",
          [.vstr (swPattern (jsToStr H cmp))]⟩
      else if operation = "ew" then
        ⟨"\"" ++ feature.name ++ "\" LIKE ?", [.vstr (ewPattern (jsToStr H cmp))]⟩
      else if operation = "ewi" then
        ⟨"LOWER(\"" ++ feature.name ++ "\") LIKE LOWER(?)",
          [.vstr (ewPattern (jsToStr H cmp))]⟩
      else ⟨"", []⟩

mutual

/-- Embedding of `toSQLCondition(features, query)` on a non-null tree: the `switch` on
`query.type`; `anyof` joins children with `OR`, `allof` with `AND`, `not`
joins with `OR` and wraps in `NOT( ... )` when non-empty, every other type
is the leaf branch. -/
def toSQLCondition (H : Host) (features : List Feature) : QueryTree → SQLCondition
  | .mk qtype operation left right children =>
    if qtype = "anyof" then joinConds " OR " (compileChildren H features children)
    else if qtype = "allof" then joinConds " AND " (compileChildren H features children)
    else if qtype = "not" then
      let inner := joinConds " OR " (compileChildren H features children)
      ⟨if inner.sql = "" then "" else "NOT( " ++ inner.sql ++ " )", inner.params⟩
    else leafCondition H features operation left right

/-- The per-child compilation inside the joining loops. -/
def compileChildren (H : Host) (features : List Feature) :
    List QueryTree → List SQLCondition
  | [] => []
  | c :: rest => toSQLCondition H features c :: compileChildren H features rest

end

/-- The top-level null guard `if (!query) ...` of `toSQLCondition`. -/
def toSQLConditionOpt (H : Host) (features : List Feature) :
    Option QueryTree → SQLCondition
  | none => ⟨"", []⟩
  | some q => toSQLCondition H features q

/-- The number of `?` placeholders of a SQL fragment. -/
def countQ (s : String) : Nat := s.data.count '?'

/-! ### Placeholder / parameter alignment (C1)

A compiled condition is analysed as a token list: literal SQL text
interleaved with the placeholders, each placeholder carrying the parameter
it binds.  `toSQLTokens` mirrors `toSQLCondition` exactly; rendering the
tokens (each hole as `?`) yields the `sql` string, and collecting the hole
values left to right yields `params`. -/

/-- One token of a compiled SQL fragment: literal text, or a `?` placeholder
together with the parameter bound at that position. -/
inductive SqlTok where
  | str (s : String)
  | hole (p : JSVal)

/-- The characters of a token list, each hole rendered as `?`. -/
def renderSqlData : List SqlTok → List Char
  | [] => []
  | .str s :: ts => s.data ++ renderSqlData ts
  | .hole _ :: ts => '?' :: renderSqlData ts

/-- The parameters bound by the holes, in left-to-right order. -/
def renderParams : List SqlTok → List JSVal
  | [] => []
  | .str _ :: ts => renderParams ts
  | .hole p :: ts => p :: renderParams ts

/-- The token form of `leafCondition`. -/
def leafTokens (H : Host) (features : List Feature) (operation : String)
    (left : Int) (right : Option String) : List SqlTok :=
  if operation ≠ "null" ∧ right = none then []
  else
    match jsIndex features left with
    | none => []
    | some feature =>
      let cmp := turnInto H (match right with | none => .vnull | some s => .vstr s)
        feature.type
      if operation = "null" then [.str ("\"" ++ feature.name ++ "\" IS NULL")]
      else if operation = "eq" then [.str ("\"" ++ feature.name ++ "\" = "), .hole cmp]
      else if operation = "lt" then [.str ("\"" ++ feature.name ++ "\" < "), .hole cmp]
      else if operation = "le" ∨ operation = "lte" then
        [.str ("\"" ++ feature.name ++ "\" <= "), .hole cmp]
      else if operation = "gt" then [.str ("\"" ++ feature.name ++ "\" > "), .hole cmp]
      else if operation = "ge" ∨ operation = "gte" then
        [.str ("\"" ++ feature.name ++ "\" >= "), .hole cmp]
      else if operation = "cn" then
        [.str ("\"" ++ feature.name ++ "\" LIKE "), .hole (.vstr (cnPattern (jsToStr H cmp)))]
      else if operation = "cni" then
        [.str ("LOWER(\"" ++ feature.name ++ "\") LIKE LOWER("),
          .hole (.vstr (cnPattern (jsToStr H cmp))), .str ")"]
      else if operation = "sw" then
        [.str ("\"" ++ feature.name ++ "\" LIKE "), .hole (.vstr (swPattern (jsToStr H cmp)))]
      else if operation = "swi" then
        [.str ("LOWER(\"" ++ feature.name ++ "\") LIKE LOWER("),
          .hole (.vstr (swPattern (jsToStr H cmp))), .str ")"]
      else if operation = "ew" then
        [.str ("\"" ++ feature.name ++ "\" LIKE "), .hole (.vstr (ewPattern (jsToStr H cmp)))]
      else if operation = "ewi" then
        [.str ("LOWER(\"" ++ feature.name ++ "\") LIKE LOWER("),
          .hole (.vstr (ewPattern (jsToStr H cmp))), .str ")"]
      else []

/-- Token form of `joinStep`. -/
def joinTokStep (sep : String) (acc ts : List SqlTok) : List SqlTok :=
  if ts.isEmpty then acc
  else if acc.isEmpty then .str "(" :: (ts ++ [.str ")"])
  else acc ++ .str sep :: .str "(" :: (ts ++ [.str ")"])

/-- Token form of `joinConds`. -/
def joinToks (sep : String) (tss : List (List SqlTok)) : List SqlTok :=
  tss.foldl (joinTokStep sep) []

mutual

/-- Token form of `toSQLCondition`. -/
def toSQLTokens (H : Host) (features : List Feature) : QueryTree → List SqlTok
  | .mk qtype operation left right children =>
    if qtype = "anyof" then joinToks " OR " (tokChildren H features children)
    else if qtype = "allof" then joinToks " AND " (tokChildren H features children)
    else if qtype = "not" then
      let inner := joinToks " OR " (tokChildren H features children)
      if inner.isEmpty then [] else .str "NOT( " :: (inner ++ [.str " )"])
    else leafTokens H features operation left right

/-- Token form of `compileChildren`. -/
def tokChildren (H : Host) (features : List Feature) : List QueryTree → List (List SqlTok)
  | [] => []
  | c :: rest => toSQLTokens H features c :: tokChildren H features rest

end

/-- Statement that `ts` is a faithful token analysis of the condition `c`. -/
def CondToks (c : SQLCondition) (ts : List SqlTok) : Prop :=
  c.sql.data = renderSqlData ts ∧ c.params = renderParams ts ∧ (ts = [] ↔ c.sql.data = [])

/-- No literal token contains a `?`. -/
def StrsClean (ts : List SqlTok) : Prop :=
  ∀ s, SqlTok.str s ∈ ts → '?' ∉ s.data

/-- Structural induction for `QueryTree` through child membership. -/
theorem QueryTree.recOnMem {P : QueryTree → Prop}
    (h : ∀ qtype operation left right children,
      (∀ c ∈ children, P c) → P (.mk qtype operation left right children)) :
    ∀ q, P q
  | .mk qtype operation left right children =>
    h qtype operation left right children
      (fun c hc =>
        have : sizeOf c < sizeOf (QueryTree.mk qtype operation left right children) := by
          have hlt := List.sizeOf_lt_of_mem hc
          simp only [QueryTree.mk.sizeOf_spec]
          omega
        QueryTree.recOnMem h c)
termination_by q => sizeOf q

/-- Absence of `?` is preserved by string concatenation. -/
theorem noQ_app {a b : String} (ha : '?' ∉ a.data) (hb : '?' ∉ b.data) :
    '?' ∉ (a ++ b).data := by
  simp only [String.data_append, List.mem_append]
  rintro (h | h)
  · exact ha h
  · exact hb h

/-- The empty condition corresponds to the empty token list. -/
theorem condToks_shape0 : CondToks ⟨"", []⟩ [] ∧ StrsClean [] := by
  refine ⟨⟨rfl, rfl, by simp⟩, ?_⟩
  intro s hs
  simp at hs

/-- A parameterless leaf corresponds to one literal token. -/
theorem condToks_shape1 (a b : String) (hq : '?' ∉ (a ++ b).data)
    (hb : b.data ≠ []) :
    CondToks ⟨a ++ b, []⟩ [.str (a ++ b)] ∧ StrsClean [.str (a ++ b)] := by
  refine ⟨⟨by simp [renderSqlData], rfl, ?_⟩, ?_⟩
  · refine iff_of_false (by simp) fun h => ?_
    rw [String.data_append] at h
    rcases List.append_eq_nil.mp h with ⟨-, h2⟩
    exact hb h2
  · intro s hs
    simp only [List.mem_singleton, SqlTok.str.injEq] at hs
    exact hs ▸ hq

/-- A one-parameter leaf whose placeholder is the last character. -/
theorem condToks_shape2 (a b c : String) (p : JSVal)
    (hbc : b.data = c.data ++ ['?'])
    (ha : '?' ∉ a.data) (hc : '?' ∉ c.data) :
    CondToks ⟨a ++ b, [p]⟩ [.str (a ++ c), .hole p]
      ∧ StrsClean [.str (a ++ c), .hole p] := by
  refine ⟨⟨?_, rfl, ?_⟩, ?_⟩
  · simp [renderSqlData, String.data_append, hbc]
  · refine iff_of_false (by simp) fun h => ?_
    rw [String.data_append, hbc] at h
    rcases List.append_eq_nil.mp h with ⟨-, h2⟩
    rcases List.append_eq_nil.mp h2 with ⟨-, h3⟩
    exact absurd h3 (by simp)
  · intro s hs
    simp only [List.mem_cons, List.not_mem_nil, or_false, SqlTok.str.injEq] at hs
    rcases hs with hs | hs
    · exact hs ▸ noQ_app ha hc
    · cases hs

/-- A one-parameter leaf with literal text after the placeholder. -/
theorem condToks_shape3 (a b c d : String) (p : JSVal)
    (hbc : b.data = c.data ++ '?' :: d.data)
    (ha : '?' ∉ a.data) (hc : '?' ∉ c.data) (hd : '?' ∉ d.data) :
    CondToks ⟨a ++ b, [p]⟩ [.str (a ++ c), .hole p, .str d]
      ∧ StrsClean [.str (a ++ c), .hole p, .str d] := by
  refine ⟨⟨?_, rfl, ?_⟩, ?_⟩
  · simp [renderSqlData, String.data_append, hbc]
  · refine iff_of_false (by simp) fun h => ?_
    rw [String.data_append, hbc] at h
    rcases List.append_eq_nil.mp h with ⟨-, h2⟩
    rcases List.append_eq_nil.mp h2 with ⟨-, h3⟩
    exact absurd h3 (by simp)
  · intro s hs
    simp only [List.mem_cons, List.not_mem_nil, or_false, SqlTok.str.injEq] at hs
    rcases hs with hs | hs | hs
    · exact hs ▸ noQ_app ha hc
    · cases hs
    · exact hs ▸ hd

/-- Values returned by `jsIndex` are elements of the list. -/
theorem jsIndex_mem {α : Type} {l : List α} {i : Int} {a : α}
    (h : jsIndex l i = some a) : a ∈ l := by
  unfold jsIndex at h
  split_ifs at h
  exact List.get?_mem h

/-- The leaf branch of the compiler and its token form agree. -/
theorem leafTokens_spec (H : Host) (features : List Feature) (operation : String)
    (left : Int) (right : Option String)
    (hfs : ∀ f ∈ features, '?' ∉ f.name.data) :
    CondToks (leafCondition H features operation left right)
        (leafTokens H features operation left right)
      ∧ StrsClean (leafTokens H features operation left right) := by
  unfold leafCondition leafTokens
  by_cases h0 : operation ≠ "null" ∧ right = none
  · rw [if_pos h0, if_pos h0]
    exact condToks_shape0
  rw [if_neg h0, if_neg h0]
  cases hj : jsIndex features left with
  | none => exact condToks_shape0
  | some feature =>
    have hname : '?' ∉ feature.name.data := hfs feature (jsIndex_mem hj)
    have hq : '?' ∉ ("\"" ++ feature.name).data := noQ_app (by decide) hname
    have hqL : '?' ∉ ("LOWER(\"" ++ feature.name).data := noQ_app (by decide) hname
    dsimp only
    by_cases h1 : operation = "null"
    · rw [if_pos h1, if_pos h1]
      exact condToks_shape1 ("\"" ++ feature.name) "\" IS NULL"
        (noQ_app hq (by decide)) (by decide)
    rw [if_neg h1, if_neg h1]
    by_cases h2 : operation = "eq"
    · rw [if_pos h2, if_pos h2]
      exact condToks_shape2 ("\"" ++ feature.name) "\" = ?" "\" = " _
        (by decide) hq (by decide)
    rw [if_neg h2, if_neg h2]
    by_cases h3 : operation = "lt"
    · rw [if_pos h3, if_pos h3]
      exact condToks_shape2 ("\"" ++ feature.name) "\" < ?" "\" < " _
        (by decide) hq (by decide)
    rw [if_neg h3, if_neg h3]
    by_cases h4 : operation = "le" ∨ operation = "lte"
    · rw [if_pos h4, if_pos h4]
      exact condToks_shape2 ("\"" ++ feature.name) "\" <= ?" "\" <= " _
        (by decide) hq (by decide)
    rw [if_neg h4, if_neg h4]
    by_cases h5 : operation = "gt"
    · rw [if_pos h5, if_pos h5]
      exact condToks_shape2 ("\"" ++ feature.name) "\" > ?" "\" > " _
        (by decide) hq (by decide)
    rw [if_neg h5, if_neg h5]
    by_cases h6 : operation = "ge" ∨ operation = "gte"
    · rw [if_pos h6, if_pos h6]
      exact condToks_shape2 ("\"" ++ feature.name) "\" >= ?" "\" >= " _
        (by decide) hq (by decide)
    rw [if_neg h6, if_neg h6]
    by_cases h7 : operation = "cn"
    · rw [if_pos h7, if_pos h7]
      exact condToks_shape2 ("\"" ++ feature.name) "\" LIKE ?" "\" LIKE " _
        (by decide) hq (by decide)
    rw [if_neg h7, if_neg h7]
    by_cases h8 : operation = "cni"
    · rw [if_pos h8, if_pos h8]
      exact condToks_shape3 ("LOWER(\"" ++ feature.name) "\") LIKE LOWER(?)"
        "\") LIKE LOWER(" ")" _ (by decide) hqL (by decide) (by decide)
    rw [if_neg h8, if_neg h8]
    by_cases h9 : operation = "sw"
    · rw [if_pos h9, if_pos h9]
      exact condToks_shape2 ("\"" ++ feature.name) "\" LIKE ?" "\" LIKE " _
        (by decide) hq (by decide)
    rw [if_neg h9, if_neg h9]
    by_cases h10 : operation = "swi"
    · rw [if_pos h10, if_pos h10]
      exact condToks_shape3 ("LOWER(\"" ++ feature.name) "\") LIKE LOWER(?)"
        "\") LIKE LOWER(" ")" _ (by decide) hqL (by decide) (by decide)
    rw [if_neg h10, if_neg h10]
    by_cases h11 : operation = "ew"
    · rw [if_pos h11, if_pos h11]
      exact condToks_shape2 ("\"" ++ feature.name) "\" LIKE ?" "\" LIKE " _
        (by decide) hq (by decide)
    rw [if_neg h11, if_neg h11]
    by_cases h12 : operation = "ewi"
    · rw [if_pos h12, if_pos h12]
      exact condToks_shape3 ("LOWER(\"" ++ feature.name) "\") LIKE LOWER(?)"
        "\") LIKE LOWER(" ")" _ (by decide) hqL (by decide) (by decide)
    rw [if_neg h12, if_neg h12]
    exact condToks_shape0

/-- A string is empty exactly when it has no characters. -/
theorem str_eq_empty_iff (s : String) : s = "" ↔ s.data = [] := by
  constructor
  · intro h; rw [h]
  · intro h; exact String.ext (by rw [h])

/-- Rendering distributes over token concatenation. -/
theorem renderSqlData_append (a b : List SqlTok) :
    renderSqlData (a ++ b) = renderSqlData a ++ renderSqlData b := by
  induction a with
  | nil => rfl
  | cons t ts ih => cases t <;> simp [renderSqlData, ih]

/-- Parameter collection distributes over token concatenation. -/
theorem renderParams_append (a b : List SqlTok) :
    renderParams (a ++ b) = renderParams a ++ renderParams b := by
  induction a with
  | nil => rfl
  | cons t ts ih => cases t <;> simp [renderParams, ih]

/-- Cleanliness of literal tokens under concatenation. -/
theorem StrsClean_append {a b : List SqlTok} (ha : StrsClean a) (hb : StrsClean b) :
    StrsClean (a ++ b) := by
  intro s hs
  rcases List.mem_append.mp hs with h | h
  · exact ha s h
  · exact hb s h

/-- Cleanliness of literal tokens under cons. -/
theorem StrsClean_cons {x : SqlTok} {l : List SqlTok}
    (hx : ∀ s, x = .str s → '?' ∉ s.data) (hl : StrsClean l) :
    StrsClean (x :: l) := by
  intro s hs
  rcases List.mem_cons.mp hs with h | h
  · exact hx s h.symm
  · exact hl s h

/-- One joining step preserves the correspondence. -/
theorem joinStep_spec (sep : String) (hsep : '?' ∉ sep.data)
    {acc c : SQLCondition} {accT ts : List SqlTok}
    (hacc : CondToks acc accT ∧ StrsClean accT)
    (hc : CondToks c ts ∧ StrsClean ts) :
    CondToks (joinStep sep acc c) (joinTokStep sep accT ts)
      ∧ StrsClean (joinTokStep sep accT ts) := by
  obtain ⟨⟨ha1, ha2, ha3⟩, ha4⟩ := hacc
  obtain ⟨⟨hc1, hc2, hc3⟩, hc4⟩ := hc
  unfold joinStep joinTokStep
  by_cases hce : c.sql = ""
  · have hts : ts = [] := hc3.mpr ((str_eq_empty_iff _).mp hce)
    rw [if_pos hce, hts]
    simp only [List.isEmpty_nil, if_true]
    exact ⟨⟨ha1, ha2, ha3⟩, ha4⟩
  · have hts : ¬ ts = [] := fun h => hce ((str_eq_empty_iff _).mpr (hc3.mp h))
    have htsb : ts.isEmpty = false := by
      cases ts
      · exact absurd rfl hts
      · rfl
    rw [if_neg hce, htsb]
    rw [if_neg (show ¬ (false = true) by decide)]
    by_cases hae : acc.sql = ""
    · have hats : accT = [] := ha3.mpr ((str_eq_empty_iff _).mp hae)
      have hap : acc.params = [] := by rw [ha2, hats]; rfl
      rw [if_pos hae, hats]
      simp only [List.isEmpty_nil, if_true]
      refine ⟨⟨?_, ?_, ?_⟩, ?_⟩
      · simp [renderSqlData, renderSqlData_append, String.data_append, hc1]
      · simp [renderParams, renderParams_append, hap, hc2]
      · refine iff_of_false (by simp) fun h => ?_
        simp only [String.data_append] at h
        rcases List.append_eq_nil.mp h with ⟨-, h4⟩
        exact absurd h4 (by decide)
      · refine StrsClean_cons (fun s h => by cases h; decide) ?_
        refine StrsClean_append hc4 ?_
        intro s hs
        simp only [List.mem_singleton, SqlTok.str.injEq] at hs
        subst hs
        decide
    · have hats : ¬ accT = [] := fun h => hae ((str_eq_empty_iff _).mpr (ha3.mp h))
      have hatsb : accT.isEmpty = false := by
        cases accT
        · exact absurd rfl hats
        · rfl
      rw [if_neg hae, hatsb]
      rw [if_neg (show ¬ (false = true) by decide)]
      refine ⟨⟨?_, ?_, ?_⟩, ?_⟩
      · simp [renderSqlData, renderSqlData_append, String.data_append, ha1, hc1]
      · simp [renderParams, renderParams_append, ha2, hc2]
      · refine iff_of_false (by simp [hats]) fun h => ?_
        simp only [String.data_append] at h
        rcases List.append_eq_nil.mp h with ⟨-, h4⟩
        exact absurd h4 (by decide)
      · refine StrsClean_append ha4 ?_
        refine StrsClean_cons (fun s h => by cases h; exact hsep) ?_
        refine StrsClean_cons (fun s h => by cases h; decide) ?_
        refine StrsClean_append hc4 ?_
        intro s hs
        simp only [List.mem_singleton, SqlTok.str.injEq] at hs
        subst hs
        decide

/-- The joining loop preserves the correspondence over any child list. -/
theorem joinConds_spec (sep : String) (hsep : '?' ∉ sep.data)
    {cs : List SQLCondition} {tss : List (List SqlTok)}
    (h : List.Forall₂ (fun c ts => CondToks c ts ∧ StrsClean ts) cs tss) :
    CondToks (joinConds sep cs) (joinToks sep tss)
      ∧ StrsClean (joinToks sep tss) := by
  unfold joinConds joinToks
  suffices hgen : ∀ acc accT, CondToks acc accT ∧ StrsClean accT →
      CondToks (cs.foldl (joinStep sep) acc) (tss.foldl (joinTokStep sep) accT)
        ∧ StrsClean (tss.foldl (joinTokStep sep) accT) by
    refine hgen ⟨"", []⟩ [] ⟨⟨rfl, rfl, by simp⟩, ?_⟩
    intro s hs
    simp at hs
  induction h with
  | nil => intro acc accT h; exact h
  | cons hpair _ ih =>
    intro acc accT h
    exact ih _ _ (joinStep_spec sep hsep h hpair)

/-- The lists `compileChildren` and `tokChildren` are pointwise related whenever each
child is. -/
theorem children_forall2 (H : Host) (features : List Feature)
    (cs : List QueryTree)
    (ih : ∀ c ∈ cs, CondToks (toSQLCondition H features c) (toSQLTokens H features c)
      ∧ StrsClean (toSQLTokens H features c)) :
    List.Forall₂ (fun c ts => CondToks c ts ∧ StrsClean ts)
      (compileChildren H features cs) (tokChildren H features cs) := by
  induction cs with
  | nil =>
    rw [compileChildren, tokChildren]
    exact List.Forall₂.nil
  | cons c rest ihr =>
    rw [compileChildren, tokChildren]
    exact List.Forall₂.cons (ih c (by simp))
      (ihr fun d hd => ih d (by simp [hd]))

/-- The compiled condition of any tree is faithfully analysed by its token
form: the `sql` text is the rendering of the tokens, the `params` are the
hole values in order, and no literal token contains `?`. -/
theorem toSQLTokens_spec (H : Host) (features : List Feature)
    (hfs : ∀ f ∈ features, '?' ∉ f.name.data) :
    ∀ q, CondToks (toSQLCondition H features q) (toSQLTokens H features q)
      ∧ StrsClean (toSQLTokens H features q) := by
  refine QueryTree.recOnMem ?_
  intro qtype operation left right children ih
  rw [toSQLCondition, toSQLTokens]
  by_cases h1 : qtype = "anyof"
  · rw [if_pos h1, if_pos h1]
    exact joinConds_spec " OR " (by decide) (children_forall2 H features children ih)
  rw [if_neg h1, if_neg h1]
  by_cases h2 : qtype = "allof"
  · rw [if_pos h2, if_pos h2]
    exact joinConds_spec " AND " (by decide) (children_forall2 H features children ih)
  rw [if_neg h2, if_neg h2]
  by_cases h3 : qtype = "not"
  · rw [if_pos h3, if_pos h3]
    obtain ⟨⟨hi1, hi2, hi3⟩, hi4⟩ :=
      joinConds_spec " OR " (by decide) (children_forall2 H features children ih)
    dsimp only
    by_cases hie : (joinConds " OR " (compileChildren H features children)).sql = ""
    · have hit : joinToks " OR " (tokChildren H features children) = [] :=
        hi3.mpr ((str_eq_empty_iff _).mp hie)
      have hip : (joinConds " OR " (compileChildren H features children)).params = [] := by
        rw [hi2, hit]; rfl
      rw [if_pos hie, hit]
      simp only [List.isEmpty_nil, if_true]
      exact ⟨⟨by simp [renderSqlData], by simp [renderParams, hip], by simp⟩,
        fun s hs => by simp at hs⟩
    · have hit : ¬ joinToks " OR " (tokChildren H features children) = [] :=
        fun h => hie ((str_eq_empty_iff _).mpr (hi3.mp h))
      have hitb : (joinToks " OR " (tokChildren H features children)).isEmpty = false := by
        cases hj : joinToks " OR " (tokChildren H features children)
        · exact absurd hj hit
        · rfl
      rw [if_neg hie, hitb]
      rw [if_neg (show ¬ (false = true) by decide)]
      refine ⟨⟨?_, ?_, ?_⟩, ?_⟩
      · simp [renderSqlData, renderSqlData_append, String.data_append, hi1]
      · simp [renderParams, renderParams_append, hi2]
      · refine iff_of_false (by simp) fun h => ?_
        simp only [String.data_append] at h
        rcases List.append_eq_nil.mp h with ⟨-, h4⟩
        exact absurd h4 (by decide)
      · refine StrsClean_cons (fun s h => by cases h; decide) ?_
        refine StrsClean_append hi4 ?_
        intro s hs
        simp only [List.mem_singleton, SqlTok.str.injEq] at hs
        subst hs
        decide
  rw [if_neg h3, if_neg h3]
  exact leafTokens_spec H features operation left right hfs

/-- Rendering a clean token list has exactly one `?` per hole. -/
theorem countQ_render {ts : List SqlTok} (hclean : StrsClean ts) :
    (renderSqlData ts).count '?' = (renderParams ts).length := by
  induction ts with
  | nil => rfl
  | cons t rest ih =>
    have hrest : StrsClean rest := fun s hs => hclean s (List.mem_cons_of_mem _ hs)
    cases t with
    | str s =>
      have hs : '?' ∉ s.data := hclean s (List.mem_cons_self _ _)
      simp [renderSqlData, renderParams, List.count_append, ih hrest,
        List.count_eq_zero_of_not_mem hs]
    | hole p =>
      simp [renderSqlData, renderParams, ih hrest, List.count_cons]

/-- A concrete host used to instantiate theorems at sample inputs. -/
def H0 : Host :=
  { parseNum := fun _ => none
    parseDate := fun _ => none
    dateFromNum := fun _ => none
    showNum := fun _ => ""
    showDate := fun _ => "" }

/-- C1: for every field list whose names contain no `?` and every filter
tree, the compiled condition has exactly as many `?` placeholders in its
`sql` string as entries in `params`; moreover the fragment is the rendering
of a token list whose holes carry, left to right, exactly the `params` list,
so each parameter is bound by the placeholder at its position. -/
theorem toSQLCondition_placeholder_alignment (H : Host) (features : List Feature)
    (q : QueryTree) (hfs : ∀ f ∈ features, '?' ∉ f.name.data) :
    countQ (toSQLCondition H features q).sql
        = (toSQLCondition H features q).params.length
      ∧ (toSQLCondition H features q).sql.data
        = renderSqlData (toSQLTokens H features q)
      ∧ (toSQLCondition H features q).params
        = renderParams (toSQLTokens H features q)
      ∧ StrsClean (toSQLTokens H features q) := by
  obtain ⟨⟨h1, h2, h3⟩, h4⟩ := toSQLTokens_spec H features hfs q
  refine ⟨?_, h1, h2, h4⟩
  unfold countQ
  rw [h1, countQ_render h4, h2]

/-- Witness for C1 at a concrete field list and leaf filter. -/
theorem toSQLCondition_placeholder_alignment_witness :
    (∀ f ∈ [Feature.mk 0 .text "a"], '?' ∉ f.name.data)
      ∧ (countQ (toSQLCondition H0 [Feature.mk 0 .text "a"]
            (.mk "single" "eq" 0 (some "5") [])).sql
          = (toSQLCondition H0 [Feature.mk 0 .text "a"]
              (.mk "single" "eq" 0 (some "5") [])).params.length
        ∧ (toSQLCondition H0 [Feature.mk 0 .text "a"]
            (.mk "single" "eq" 0 (some "5") [])).sql.data
          = renderSqlData (toSQLTokens H0 [Feature.mk 0 .text "a"]
              (.mk "single" "eq" 0 (some "5") []))
        ∧ (toSQLCondition H0 [Feature.mk 0 .text "a"]
            (.mk "single" "eq" 0 (some "5") [])).params
          = renderParams (toSQLTokens H0 [Feature.mk 0 .text "a"]
              (.mk "single" "eq" 0 (some "5") []))
        ∧ StrsClean (toSQLTokens H0 [Feature.mk 0 .text "a"]
            (.mk "single" "eq" 0 (some "5") []))) :=
  ⟨by decide, toSQLCondition_placeholder_alignment H0 [Feature.mk 0 .text "a"]
    (.mk "single" "eq" 0 (some "5") []) (by decide)⟩

/-- Distribution of `compileChildren` over list concatenation. -/
theorem compileChildren_append (H : Host) (features : List Feature)
    (a b : List QueryTree) :
    compileChildren H features (a ++ b)
      = compileChildren H features a ++ compileChildren H features b := by
  induction a with
  | nil => rw [compileChildren]; rfl
  | cons c rest ih =>
    rw [List.cons_append, compileChildren, compileChildren, ih, List.cons_append]

/-- A child compiling to an empty fragment is skipped by the joining loop. -/
theorem joinStep_empty (sep : String) (acc : SQLCondition) (ps : List JSVal) :
    joinStep sep acc ⟨"", ps⟩ = acc := by
  unfold joinStep
  rw [if_pos rfl]

/-- Dropping an empty-fragment child does not change the joined condition. -/
theorem joinConds_skip_empty (sep : String) (l1 l2 : List SQLCondition)
    (ps : List JSVal) :
    joinConds sep (l1 ++ ⟨"", ps⟩ :: l2) = joinConds sep (l1 ++ l2) := by
  unfold joinConds
  rw [List.foldl_append, List.foldl_cons, joinStep_empty, List.foldl_append]

/-- Unfolding of `toSQLCondition` on an `anyof` node. -/
theorem toSQLCondition_anyof (H : Host) (features : List Feature)
    (op : String) (l : Int) (r : Option String) (cs : List QueryTree) :
    toSQLCondition H features (.mk "anyof" op l r cs)
      = joinConds " OR " (compileChildren H features cs) := by
  rw [toSQLCondition, if_pos rfl]

/-- Unfolding of `toSQLCondition` on an `allof` node. -/
theorem toSQLCondition_allof (H : Host) (features : List Feature)
    (op : String) (l : Int) (r : Option String) (cs : List QueryTree) :
    toSQLCondition H features (.mk "allof" op l r cs)
      = joinConds " AND " (compileChildren H features cs) := by
  rw [toSQLCondition, if_neg (by decide), if_pos rfl]

/-- Unfolding of `toSQLCondition` on a `not` node. -/
theorem toSQLCondition_not (H : Host) (features : List Feature)
    (op : String) (l : Int) (r : Option String) (cs : List QueryTree) :
    toSQLCondition H features (.mk "not" op l r cs)
      = ⟨if (joinConds " OR " (compileChildren H features cs)).sql = "" then ""
          else "NOT( " ++ (joinConds " OR " (compileChildren H features cs)).sql ++ " )",
          (joinConds " OR " (compileChildren H features cs)).params⟩ := by
  rw [toSQLCondition, if_neg (by decide), if_neg (by decide), if_pos rfl]

/-- C10: a leaf node whose operation is not `null` but whose literal is the
null marker compiles to the empty condition, and an enclosing composite node
skips such a child entirely. -/
theorem nullLiteral_leaf_skipped (H : Host) (features : List Feature)
    (qtype operation : String) (left : Int) (cs : List QueryTree)
    (ctype cop : String) (cleft : Int) (cright : Option String)
    (cs1 cs2 : List QueryTree)
    (hty : qtype = "single" ∨ qtype = "one") (hop : operation ≠ "null")
    (hcty : ctype = "anyof" ∨ ctype = "allof" ∨ ctype = "not") :
    toSQLCondition H features (.mk qtype operation left none cs) = ⟨"", []⟩
      ∧ toSQLCondition H features
          (.mk ctype cop cleft cright
            (cs1 ++ .mk qtype operation left none cs :: cs2))
        = toSQLCondition H features (.mk ctype cop cleft cright (cs1 ++ cs2)) := by
  have hleaf : toSQLCondition H features (.mk qtype operation left none cs) = ⟨"", []⟩ := by
    rw [toSQLCondition]
    rcases hty with h | h <;> subst h <;>
      rw [if_neg (by decide), if_neg (by decide), if_neg (by decide)] <;>
      · unfold leafCondition
        rw [if_pos ⟨hop, rfl⟩]
  refine ⟨hleaf, ?_⟩
  have hsplit : compileChildren H features
      (cs1 ++ QueryTree.mk qtype operation left none cs :: cs2)
      = compileChildren H features cs1
        ++ (⟨"", []⟩ : SQLCondition) :: compileChildren H features cs2 := by
    rw [compileChildren_append, compileChildren, hleaf]
  have hjoin : ∀ sep, joinConds sep (compileChildren H features
        (cs1 ++ QueryTree.mk qtype operation left none cs :: cs2))
      = joinConds sep (compileChildren H features (cs1 ++ cs2)) := by
    intro sep
    rw [hsplit, joinConds_skip_empty, ← compileChildren_append]
  rcases hcty with h | h | h <;> subst h
  · rw [toSQLCondition_anyof, toSQLCondition_anyof, hjoin]
  · rw [toSQLCondition_allof, toSQLCondition_allof, hjoin]
  · rw [toSQLCondition_not, toSQLCondition_not, hjoin]

/-- Witness for C10 at a concrete leaf and enclosing `anyof`. -/
theorem nullLiteral_leaf_skipped_witness :
    (("single" = "single" ∨ "single" = "one") ∧ "eq" ≠ "null"
        ∧ ("anyof" = "anyof" ∨ "anyof" = "allof" ∨ "anyof" = "not"))
      ∧ toSQLCondition H0 [Feature.mk 0 .text "a"]
          (.mk "single" "eq" 0 none []) = ⟨"", []⟩
      ∧ toSQLCondition H0 [Feature.mk 0 .text "a"]
          (.mk "anyof" "" (-1) (some "")
            ([] ++ QueryTree.mk "single" "eq" 0 none []
              :: [QueryTree.mk "single" "eq" 0 (some "x") []]))
        = toSQLCondition H0 [Feature.mk 0 .text "a"]
          (.mk "anyof" "" (-1) (some "")
            ([] ++ [QueryTree.mk "single" "eq" 0 (some "x") []])) :=
  ⟨⟨by decide, by decide, by decide⟩,
    nullLiteral_leaf_skipped H0 [Feature.mk 0 .text "a"] "single" "eq" 0 []
      "anyof" "" (-1) (some "") [] [QueryTree.mk "single" "eq" 0 (some "x") []]
      (by decide) (by decide) (by decide)⟩

/-! ### `LIKE` pattern semantics (C8, C7)

PostgreSQL `LIKE` with the default escape character `\`: `%` matches any
string, `_` matches any single character, `\c` matches the literal `c`, and
any other character matches itself.  A pattern ending in a bare escape
character is an error (`none`). -/

/-- One token of a parsed `LIKE` pattern. -/
inductive LikeTok where
  | anyStr
  | anyChar
  | lit (c : Char)

/-- Parse a `LIKE` pattern into tokens. -/
def parseLike : List Char → Option (List LikeTok)
  | [] => some []
  | c :: rest =>
    if c = '\\' then
      match rest with
      | [] => none
      | d :: rest2 => (parseLike rest2).map (LikeTok.lit d :: ·)
    else if c = '%' then (parseLike rest).map (LikeTok.anyStr :: ·)
    else if c = '_' then (parseLike rest).map (LikeTok.anyChar :: ·)
    else (parseLike rest).map (LikeTok.lit c :: ·)

/-- Matching relation `LMatch ts s`: the token list matches the whole character list. -/
inductive LMatch : List LikeTok → List Char → Prop
  | nil : LMatch [] []
  | lit {c : Char} {ts : List LikeTok} {s : List Char} :
      LMatch ts s → LMatch (.lit c :: ts) (c :: s)
  | anyChar {c : Char} {ts : List LikeTok} {s : List Char} :
      LMatch ts s → LMatch (.anyChar :: ts) (c :: s)
  | anyStrNil {ts : List LikeTok} {s : List Char} :
      LMatch ts s → LMatch (.anyStr :: ts) s
  | anyStrCons {c : Char} {ts : List LikeTok} {s : List Char} :
      LMatch (.anyStr :: ts) s → LMatch (.anyStr :: ts) (c :: s)

/-- Semantics of `s LIKE pat` under PostgreSQL rules. -/
def likeSem (s pat : String) : Prop :=
  ∃ ts, parseLike pat.data = some ts ∧ LMatch ts s.data

/-- The escaped form of one character under `replaceWildcards`. -/
def escChar (c : Char) : List Char :=
  if c = '%' then ['\\', '%'] else if c = '_' then ['\\', '_'] else [c]

/-- Character-wise escaping of a whole literal. -/
def escList : List Char → List Char
  | [] => []
  | c :: cs => escChar c ++ escList cs

/-- The two replacement passes of `replaceWildcards` amount to escaping each
character independently: the first pass maps `%` to `\%`, and the second
pass maps every `_` (none of which was produced by the first pass) to `\_`. -/
theorem replaceWildcards_data (cs : List Char) :
    replAll '_' ['\\', '_'] (replAll '%' ['\\', '%'] cs) = escList cs := by
  induction cs with
  | nil => rfl
  | cons c rest ih =>
    by_cases h1 : c = '%'
    · subst h1
      simp [replAll, escChar, escList, ih]
    · by_cases h2 : c = '_'
      · subst h2
        simp [replAll, escChar, escList, ih]
      · simp [replAll, escChar, escList, h1, h2, ih]

/-- The unfolding of `parseLike` on a cons cell. -/
theorem parseLike_cons (c : Char) (rest : List Char) :
    parseLike (c :: rest) =
      if c = '\\' then
        match rest with
        | [] => none
        | d :: rest2 => (parseLike rest2).map (LikeTok.lit d :: ·)
      else if c = '%' then (parseLike rest).map (LikeTok.anyStr :: ·)
      else if c = '_' then (parseLike rest).map (LikeTok.anyChar :: ·)
      else (parseLike rest).map (LikeTok.lit c :: ·) := by
  rw [parseLike.eq_def]

/-- Unfolding of `parseLike` on an escaped character. -/
theorem parseLike_escape (d : Char) (rest2 : List Char) :
    parseLike ('\\' :: d :: rest2) = (parseLike rest2).map (LikeTok.lit d :: ·) := rfl

/-- An escaped backslash-free literal parses to its characters as literal
tokens, in front of whatever follows. -/
theorem parseLike_esc (cs : List Char) (h : '\\' ∉ cs) (ys : List Char) :
    parseLike (escList cs ++ ys)
      = (parseLike ys).map (cs.map LikeTok.lit ++ ·) := by
  induction cs with
  | nil =>
    cases hys : parseLike ys <;> simp [escList, hys]
  | cons c rest ih =>
    have hc : c ≠ '\\' := fun hh => h (hh ▸ List.mem_cons_self _ _)
    have hrest : '\\' ∉ rest := fun hh => h (List.mem_cons_of_mem _ hh)
    have ih2 := ih hrest
    by_cases h1 : c = '%'
    · subst h1
      simp only [escList]
      rw [show escChar '%' = ['\\', '%'] from rfl]
      simp only [List.cons_append, List.nil_append, List.append_assoc]
      rw [parseLike_escape, ih2]
      cases hys : parseLike ys <;> simp [Function.comp]
    · by_cases h2 : c = '_'
      · subst h2
        simp only [escList]
        rw [show escChar '_' = ['\\', '_'] from rfl]
        simp only [List.cons_append, List.nil_append, List.append_assoc]
        rw [parseLike_escape, ih2]
        cases hys : parseLike ys <;> simp [Function.comp]
      · simp only [escList]
        rw [show escChar c = [c] from by simp [escChar, h1, h2]]
        simp only [List.cons_append, List.nil_append, List.append_assoc]
        rw [parseLike_cons, if_neg hc, if_neg h1, if_neg h2, ih2]
        cases hys : parseLike ys <;> simp [Function.comp]

/-- Only the empty string matches the empty pattern. -/
theorem lmatch_nil (s : List Char) : LMatch [] s ↔ s = [] := by
  constructor
  · intro h
    cases h
    rfl
  · rintro rfl
    exact .nil

/-- Literal tokens match exactly their own characters. -/
theorem lmatch_lits (cs s : List Char) :
    LMatch (cs.map LikeTok.lit) s ↔ s = cs := by
  induction cs generalizing s with
  | nil => exact lmatch_nil s
  | cons c rest ih =>
    constructor
    · intro h
      cases h with
      | lit h' => rw [(ih _).mp h']
    · rintro rfl
      exact .lit ((ih _).mpr rfl)

/-- Leading `%`: some split of the string lets the rest of the pattern match
a suffix. -/
theorem lmatch_anyStr (ts : List LikeTok) (s : List Char) :
    LMatch (.anyStr :: ts) s ↔ ∃ u t, u ++ t = s ∧ LMatch ts t := by
  constructor
  · intro h
    induction s with
    | nil =>
      cases h with
      | anyStrNil h' => exact ⟨[], [], rfl, h'⟩
    | cons c s' ih =>
      cases h with
      | anyStrNil h' => exact ⟨[], c :: s', rfl, h'⟩
      | anyStrCons h' =>
        obtain ⟨u, t, hut, ht⟩ := ih h'
        exact ⟨c :: u, t, by rw [List.cons_append, hut], ht⟩
  · rintro ⟨u, t, rfl, ht⟩
    induction u with
    | nil => exact .anyStrNil ht
    | cons c u' ih => exact .anyStrCons ih

/-- A bare `%` matches everything. -/
theorem lmatch_anyStr_all (s : List Char) : LMatch [.anyStr] s := by
  induction s with
  | nil => exact .anyStrNil .nil
  | cons c s' ih => exact .anyStrCons ih

/-- Literal tokens followed by `%` match exactly the strings starting with
those characters. -/
theorem lmatch_lits_anyStr (cs s : List Char) :
    LMatch (cs.map LikeTok.lit ++ [.anyStr]) s ↔ ∃ t, cs ++ t = s := by
  induction cs generalizing s with
  | nil =>
    constructor
    · intro _
      exact ⟨s, rfl⟩
    · intro _
      exact lmatch_anyStr_all s
  | cons c rest ih =>
    constructor
    · intro h
      cases h with
      | lit h' =>
        obtain ⟨t, ht⟩ := (ih _).mp h'
        exact ⟨t, by rw [List.cons_append, ht]⟩
    · rintro ⟨t, rfl⟩
      exact .lit ((ih _).mpr ⟨t, rfl⟩)

/-- Leading `%` before literal tokens: such a pattern matches exactly strings with
`cs` as a leading segment — combined forms below. -/
theorem lmatch_anyStr_lits (cs s : List Char) :
    LMatch (.anyStr :: cs.map LikeTok.lit) s ↔ ∃ u, u ++ cs = s := by
  rw [lmatch_anyStr]
  constructor
  · rintro ⟨u, t, rfl, ht⟩
    rw [(lmatch_lits _ _).mp ht]
    exact ⟨u, rfl⟩
  · rintro ⟨u, rfl⟩
    exact ⟨u, cs, rfl, (lmatch_lits _ _).mpr rfl⟩

/-- The full `contains` token form matches exactly strings containing the
literal segment. -/
theorem lmatch_cn (cs s : List Char) :
    LMatch (.anyStr :: (cs.map LikeTok.lit ++ [.anyStr])) s
      ↔ ∃ u v, u ++ cs ++ v = s := by
  rw [lmatch_anyStr]
  constructor
  · rintro ⟨u, t, rfl, ht⟩
    obtain ⟨v, rfl⟩ := (lmatch_lits_anyStr _ _).mp ht
    exact ⟨u, v, by rw [List.append_assoc]⟩
  · rintro ⟨u, v, rfl⟩
    exact ⟨u, cs ++ v, by rw [List.append_assoc], (lmatch_lits_anyStr _ _).mpr ⟨v, rfl⟩⟩

/-- Unfolding of `parseLike` on a leading `%`. -/
theorem parseLike_pct (rest : List Char) :
    parseLike ('%' :: rest) = (parseLike rest).map (LikeTok.anyStr :: ·) := by
  rw [parseLike_cons, if_neg (by decide), if_pos rfl]

/-- The characters of `replaceWildcards`. -/
theorem replaceWildcards_chars (w : String) :
    (replaceWildcards w).data = escList w.data :=
  replaceWildcards_data w.data

/-- The characters of a `contains` pattern. -/
theorem cnPattern_data (w : String) :
    (cnPattern w).data = '%' :: (escList w.data ++ ['%']) := by
  unfold cnPattern
  rw [String.data_append, String.data_append, replaceWildcards_chars]
  simp

/-- The characters of a `startsWith` pattern. -/
theorem swPattern_data (w : String) :
    (swPattern w).data = escList w.data ++ ['%'] := by
  unfold swPattern
  rw [String.data_append, replaceWildcards_chars]

/-- The characters of an `endsWith` pattern. -/
theorem ewPattern_data (w : String) :
    (ewPattern w).data = '%' :: escList w.data := by
  unfold ewPattern
  rw [String.data_append, replaceWildcards_chars]
  simp

/-- Tokens of a `contains` pattern built from a backslash-free literal. -/
theorem cnPattern_tokens (w : String) (h : '\\' ∉ w.data) :
    parseLike (cnPattern w).data
      = some (.anyStr :: (w.data.map LikeTok.lit ++ [.anyStr])) := by
  rw [cnPattern_data, parseLike_pct, parseLike_esc _ h ['%']]
  rfl

/-- Tokens of a `startsWith` pattern built from a backslash-free literal. -/
theorem swPattern_tokens (w : String) (h : '\\' ∉ w.data) :
    parseLike (swPattern w).data
      = some (w.data.map LikeTok.lit ++ [.anyStr]) := by
  rw [swPattern_data, parseLike_esc _ h ['%']]
  rfl

/-- Tokens of an `endsWith` pattern built from a backslash-free literal. -/
theorem ewPattern_tokens (w : String) (h : '\\' ∉ w.data) :
    parseLike (ewPattern w).data
      = some (.anyStr :: w.data.map LikeTok.lit) := by
  rw [ewPattern_data, ← List.append_nil (escList w.data), parseLike_pct,
    parseLike_esc _ h []]
  simp [parseLike]

/-- C8 (amended): for every literal containing no backslash, the compiled
`LIKE` patterns escape every `%` and `_` of the literal (each parses as a
literal-match token) before the anchors are added, so the `contains`,
`startsWith` and `endsWith` patterns match exactly the strings containing,
starting with, or ending with the literal — `%`/`_` of the literal are never
treated as wildcards. -/
theorem likePattern_escapes_wildcards (w s : String) (h : '\\' ∉ w.data) :
    parseLike (replaceWildcards w).data = some (w.data.map LikeTok.lit)
      ∧ (likeSem s (cnPattern w) ↔ ∃ u v, u ++ w.data ++ v = s.data)
      ∧ (likeSem s (swPattern w) ↔ ∃ v, w.data ++ v = s.data)
      ∧ (likeSem s (ewPattern w) ↔ ∃ u, u ++ w.data = s.data) := by
  refine ⟨?_, ?_, ?_, ?_⟩
  · rw [replaceWildcards_chars, ← List.append_nil (escList w.data),
      parseLike_esc _ h []]
    simp [parseLike]
  · unfold likeSem
    rw [cnPattern_tokens w h]
    constructor
    · rintro ⟨ts, hts, hm⟩
      rw [Option.some_inj] at hts
      rw [← hts] at hm
      exact (lmatch_cn _ _).mp hm
    · intro hex
      exact ⟨_, rfl, (lmatch_cn _ _).mpr hex⟩
  · unfold likeSem
    rw [swPattern_tokens w h]
    constructor
    · rintro ⟨ts, hts, hm⟩
      rw [Option.some_inj] at hts
      rw [← hts] at hm
      exact (lmatch_lits_anyStr _ _).mp hm
    · intro hex
      exact ⟨_, rfl, (lmatch_lits_anyStr _ _).mpr hex⟩
  · unfold likeSem
    rw [ewPattern_tokens w h]
    constructor
    · rintro ⟨ts, hts, hm⟩
      rw [Option.some_inj] at hts
      rw [← hts] at hm
      exact (lmatch_anyStr_lits _ _).mp hm
    · intro hex
      exact ⟨_, rfl, (lmatch_anyStr_lits _ _).mpr hex⟩

/-- Witness for the amended C8 at a concrete literal containing `_`. -/
theorem likePattern_escapes_wildcards_witness :
    ('\\' ∉ ("a_b" : String).data)
      ∧ (parseLike (replaceWildcards "a_b").data
            = some (("a_b" : String).data.map LikeTok.lit)
        ∧ (likeSem "xa_by" (cnPattern "a_b")
            ↔ ∃ u v, u ++ ("a_b" : String).data ++ v = ("xa_by" : String).data)
        ∧ (likeSem "xa_by" (swPattern "a_b")
            ↔ ∃ v, ("a_b" : String).data ++ v = ("xa_by" : String).data)
        ∧ (likeSem "xa_by" (ewPattern "a_b")
            ↔ ∃ u, u ++ ("a_b" : String).data = ("xa_by" : String).data)) :=
  ⟨by decide, likePattern_escapes_wildcards "a_b" "xa_by" (by decide)⟩

/-- C8 counterexample: for the literal `\%` (backslash, percent), the
compiled `contains` pattern matches the string `a\b`, which contains no `%`
at all — the literal's `%` is treated as a wildcard, because the backslash
is not escaped. -/
theorem likePattern_backslash_counterexample :
    likeSem "a\\b" (cnPattern "\\%")
      ∧ '%' ∉ ("a\\b" : String).data ∧ '%' ∈ ("\\%" : String).data := by
  refine ⟨?_, by decide, by decide⟩
  refine ⟨[.anyStr, .lit '\\', .anyStr, .anyStr], rfl, ?_⟩
  exact .anyStrCons (.anyStrNil (.lit (.anyStrNil (.anyStrCons (.anyStrNil .nil)))))

/-! ### Source tables, inserts and `getNominalValues` (`source.ts`) -/

/-- The parts of a configured table (`DataSourceTable` of `source.ts`) that
the embedded operations read: backing table name and field list. -/
structure DataSourceTable where
  table : String
  fields : List Feature

/-- JavaScript array indexing with a `Nat` index, `undefined` out of range:
the source reads the pushed row at position `field.index`. -/
def jsAt (l : List JSVal) (i : Nat) : JSVal := (l.get? i).getD .vundefined

/-- The observable behaviour of `getNominalValues` up to the database call:
either the early empty result, or the SQL sentence and the parameter values
handed to the pool. -/
inductive NominalAction where
  | emptyResult
  | dbQuery (sentence : String) (values : List JSVal)

/-- Embedding of `getNominalValues(table, filter, query, feature)` of `source.ts`, up to
issuing the SQL query.  Note the source lower-cases the text query
(`query = (query || "").toLowerCase()`) but compares it to the raw column
(`"field" LIKE ?`), without `LOWER(...)` around the column. -/
def getNominalValues (H : Host) (table : DataSourceTable)
    (filter : Option QueryTree) (query : Option String) (feature : Int) :
    NominalAction :=
  match jsIndex table.fields feature with
  | none => .emptyResult
  | some f =>
    if f.type ≠ .nominal then .emptyResult
    else
      let cond1 := toSQLConditionOpt H table.fields filter
      let q := jsToLower (query.getD "")
      let base := "SELECT DISTINCT " ++ "\"" ++ f.name ++ "\" FROM \""
        ++ table.table ++ "\""
      let whereValues : String × List JSVal :=
        if cond1.sql ≠ "" then
          if q ≠ "" then
            (" WHERE (" ++ cond1.sql ++ ") AND \"" ++ f.name ++ "\" LIKE ?",
              cond1.params ++ [JSVal.vstr (swPattern q)])
          else (" WHERE " ++ cond1.sql, cond1.params)
        else if q ≠ "" then
          (" WHERE \"" ++ f.name ++ "\" LIKE ?", [JSVal.vstr (swPattern q)])
        else ("", [])
      .dbQuery (base ++ whereValues.1 ++ " ORDER BY \"" ++ f.name ++ "\" "
        ++ " LIMIT 128") whereValues.2

/-- C7 evaluated at the failing input: for a nominal field `b` and text
query `Ap`, the emitted condition is `"b" LIKE ?` with parameter `ap%` — the
query was lower-cased but the column is not wrapped in `LOWER(...)`, so the
stored value `Apple`, whose lower-cased form has the prefix `ap`, does not
match the emitted pattern (while the already-lower-case `apple` would). -/
theorem getNominalValues_prefix_not_case_insensitive :
    getNominalValues H0 ⟨"t", [⟨0, .nominal, "b"⟩]⟩ none (some "Ap") 0
        = .dbQuery
            "SELECT DISTINCT \"b\" FROM \"t\" WHERE \"b\" LIKE ? ORDER BY \"b\"  LIMIT 128"
            [.vstr "ap%"]
      ∧ jsToLower "Apple" = jsToLower "Ap" ++ "ple"
      ∧ likeSem "apple" "ap%"
      ∧ ¬ likeSem "Apple" "ap%" := by
  refine ⟨rfl, by decide, ?_, ?_⟩
  · exact ⟨[.lit 'a', .lit 'p', .anyStr], rfl, .lit (.lit (lmatch_anyStr_all _))⟩
  · rintro ⟨ts, hts, hm⟩
    rw [show parseLike (("ap%" : String).data)
        = some ((['a', 'p'].map LikeTok.lit) ++ [.anyStr]) from rfl,
      Option.some_inj] at hts
    rw [← hts, lmatch_lits_anyStr] at hm
    obtain ⟨t, ht⟩ := hm
    have h1 : 'a' = 'A' := by injection ht
    exact absurd h1 (by decide)

/-- Embedding of `toPostgresTemplate` of `utils/text.ts`: each `?` replaced by `$1`,
`$2`, ... left to right.  (The source loops replace-first-occurrence; since
a replacement `$i` contains no `?`, the loop visits the placeholders left to
right, which this single indexed pass reproduces.) -/
def pgNumber : List Char → Nat → List Char
  | [], _ => []
  | '?' :: rest, i => '$' :: (toString i).data ++ pgNumber rest (i + 1)
  | c :: rest, i => c :: pgNumber rest i

/-- String-level `toPostgresTemplate`. -/
def toPostgresTemplate (s : String) : String := ⟨pgNumber s.data 1⟩

/-- JavaScript's default stringification of a plain object: `"" + table`
yields `"[object Object]"` (`DataSourceTable` has no custom `toString`).
`pushInstance` of `source.ts` interpolates the table *object* — the
expression is `"INSERT INTO \"" + table + "\"("`, not `table.table`. -/
def jsObjectString : String := "[object Object]"

/-- The SQL statement and values `pushInstance` hands to the pool for one
instance. -/
def pushInstanceQuery (table : DataSourceTable) (inst : List JSVal) :
    String × List JSVal :=
  let sentence := "INSERT INTO \"" ++ jsObjectString ++ "\"("
    ++ String.intercalate "," (table.fields.map (fun f => "\"" ++ f.name ++ "\""))
    ++ ") VALUES ("
    ++ String.intercalate "," (table.fields.map (fun _ => "?"))
    ++ ")"
  (toPostgresTemplate sentence, table.fields.map (fun f => jsAt inst f.index))

/-- C3 evaluated at a failing input: the INSERT built by `pushInstance`
targets the literal relation name `[object Object]` — the JavaScript
stringification of the table object — and not the configured backing table
(`mytable`), so every insert fails against a real database. -/
theorem pushInstance_targets_object_object :
    pushInstanceQuery ⟨"mytable", [⟨0, .numeric, "a"⟩, ⟨1, .nominal, "b"⟩]⟩
        [JSVal.vnum 5, JSVal.vstr "x"]
      = ("INSERT INTO \"[object Object]\"(\"a\",\"b\") VALUES ($1,$2)",
          [JSVal.vnum 5, JSVal.vstr "x"])
      ∧ (⟨"mytable", [⟨0, .numeric, "a"⟩, ⟨1, .nominal, "b"⟩]⟩ : DataSourceTable).table
          = "mytable"
      ∧ jsObjectString ≠ "mytable" := by
  refine ⟨rfl, rfl, by decide⟩

/-! ### The per-source worker loop (`source.ts`) -/

/-- Constant `DEEPINT_UPDATE_INSTANCES_LIMIT` of `source.ts`. -/
def DEEPINT_UPDATE_INSTANCES_LIMIT : Nat := 100

/-- The batch-assembly loop of `runUpdateServiceTable`:
`while (instancesToPush.length < LIMIT && queue.length > 0)
   instancesToPush.push(queue.shift())`. -/
def drainLoop {α : Type} : List α → List α → List α × List α
  | acc, [] => (acc, [])
  | acc, x :: rest =>
    if acc.length < DEEPINT_UPDATE_INSTANCES_LIMIT then drainLoop (acc ++ [x]) rest
    else (acc, x :: rest)

/-- Closed form of the drain loop: it moves the first
`LIMIT - acc.length` queue elements to the end of the accumulator. -/
theorem drainLoop_spec {α : Type} (q acc : List α) :
    drainLoop acc q
      = (acc ++ q.take (DEEPINT_UPDATE_INSTANCES_LIMIT - acc.length),
          q.drop (DEEPINT_UPDATE_INSTANCES_LIMIT - acc.length)) := by
  induction q generalizing acc with
  | nil => simp [drainLoop]
  | cons x rest ih =>
    rw [drainLoop]
    by_cases h : acc.length < DEEPINT_UPDATE_INSTANCES_LIMIT
    · rw [if_pos h, ih]
      have hsub : DEEPINT_UPDATE_INSTANCES_LIMIT - acc.length
          = (DEEPINT_UPDATE_INSTANCES_LIMIT - (acc ++ [x]).length) + 1 := by
        simp only [List.length_append, List.length_singleton]
        omega
      rw [hsub]
      simp [List.take_succ_cons, List.drop_succ_cons, List.append_assoc]
    · rw [if_neg h]
      have hsub : DEEPINT_UPDATE_INSTANCES_LIMIT - acc.length = 0 := by omega
      rw [hsub]
      simp

/-- C4: each worker cycle assembles exactly the first
`min(100, queue length)` instances, removed from the front of the queue in
FIFO order; the instances beyond the first 100 are exactly what remains
queued. -/
theorem drainLoop_takes_first_batch {α : Type} (q : List α) :
    drainLoop [] q
        = (q.take DEEPINT_UPDATE_INSTANCES_LIMIT,
            q.drop DEEPINT_UPDATE_INSTANCES_LIMIT)
      ∧ (q.take DEEPINT_UPDATE_INSTANCES_LIMIT).length
          = min DEEPINT_UPDATE_INSTANCES_LIMIT q.length
      ∧ q.take DEEPINT_UPDATE_INSTANCES_LIMIT
          ++ q.drop DEEPINT_UPDATE_INSTANCES_LIMIT = q := by
  refine ⟨?_, List.length_take _ _, List.take_append_drop _ _⟩
  rw [drainLoop_spec]
  simp

/-- One observable action of a source worker: a forward attempt carrying the
whole batch (`success` = the external platform acknowledged), or the
`setTimeout` back-off delay in milliseconds. -/
inductive WorkerEvent where
  | send (batch : List (List JSVal)) (success : Bool)
  | wait (ms : Nat)

/-- The retry loop of `runUpdateServiceTable` (`while (!done) { try send;
on failure wait 5000 ms }`), driven by an oracle of attempt outcomes.
`none` means the oracle was exhausted while the loop was still retrying —
the code itself never gives up. -/
def retryLoop (batch : List (List JSVal)) : List Bool → Option (List WorkerEvent)
  | [] => none
  | true :: _ => some [.send batch true]
  | false :: rest =>
    (retryLoop batch rest).map (fun evs => .send batch false :: .wait 5000 :: evs)

/-- The worker loop across cycles: drain a batch, retry it until the oracle
grants a success, then continue with the remaining queue (`oc i` is the
outcome sequence of cycle `i`).  Concurrent enqueues are not modelled; the
queue contents are fixed up front. -/
def workerRun : List (List JSVal) → (Nat → List Bool) → Option (List WorkerEvent)
  | [], _ => some []
  | x :: q, oc =>
    match retryLoop (drainLoop [] (x :: q)).1 (oc 0) with
    | none => none
    | some evs =>
      match workerRun (drainLoop [] (x :: q)).2 (fun i => oc (i + 1)) with
      | none => none
      | some more => some (evs ++ more)
termination_by q _ => q.length
decreasing_by
  simp [drainLoop_spec, DEEPINT_UPDATE_INSTANCES_LIMIT]
  omega

/-- The events of one cycle whose first `n` attempts fail: `n` failed sends
of the same batch, each followed by the 5000 ms back-off, then the
successful send of that same batch. -/
def cycleEvents (batch : List (List JSVal)) (n : Nat) : List WorkerEvent :=
  (List.replicate n [WorkerEvent.send batch false, WorkerEvent.wait 5000]).flatten
    ++ [WorkerEvent.send batch true]

/-- The full expected trace: the queue is consumed in chunks of at most 100,
each chunk retried `fails i` times before its success. -/
def expectedEvents : List (List JSVal) → (Nat → Nat) → List WorkerEvent
  | [], _ => []
  | x :: q, fails =>
    cycleEvents ((x :: q).take DEEPINT_UPDATE_INSTANCES_LIMIT) (fails 0)
      ++ expectedEvents ((x :: q).drop DEEPINT_UPDATE_INSTANCES_LIMIT)
          (fun i => fails (i + 1))
termination_by q _ => q.length
decreasing_by
  simp [DEEPINT_UPDATE_INSTANCES_LIMIT]
  omega

/-- The queue cut into the worker's successive batches. -/
def chunks {α : Type} : List α → List (List α)
  | [] => []
  | x :: q =>
    (x :: q).take DEEPINT_UPDATE_INSTANCES_LIMIT
      :: chunks ((x :: q).drop DEEPINT_UPDATE_INSTANCES_LIMIT)
termination_by q => q.length
decreasing_by
  simp [DEEPINT_UPDATE_INSTANCES_LIMIT]
  omega

/-- The batches of the successful sends of a trace, in order. -/
def successSends : List WorkerEvent → List (List (List JSVal))
  | [] => []
  | .send b true :: evs => b :: successSends evs
  | .send _ false :: evs => successSends evs
  | .wait _ :: evs => successSends evs

/-- The retry loop under an oracle granting success after `n` failures. -/
theorem retryLoop_shaped (batch : List (List JSVal)) (n : Nat) :
    retryLoop batch (List.replicate n false ++ [true])
      = some (cycleEvents batch n) := by
  induction n with
  | zero => rfl
  | succ n ih =>
    rw [List.replicate_succ, List.cons_append, retryLoop, ih]
    simp [cycleEvents, List.replicate_succ]

/-- The worker loop under shaped oracles produces exactly the expected
trace. -/
theorem workerRun_shaped : ∀ (q : List (List JSVal)) (fails : Nat → Nat),
    workerRun q (fun i => List.replicate (fails i) false ++ [true])
      = some (expectedEvents q fails)
  | [], fails => by
    simp only [workerRun, expectedEvents]
  | x :: q, fails => by
    simp only [workerRun, expectedEvents, drainLoop_spec, List.nil_append,
      List.length_nil, Nat.sub_zero]
    rw [retryLoop_shaped,
      workerRun_shaped ((x :: q).drop DEEPINT_UPDATE_INSTANCES_LIMIT)
        (fun i => fails (i + 1))]
termination_by q _ => q.length
decreasing_by
  simp [DEEPINT_UPDATE_INSTANCES_LIMIT]
  omega

/-- A cycle's trace contains exactly one successful send, of its batch. -/
theorem successSends_cycle (batch : List (List JSVal)) (n : Nat) :
    successSends (cycleEvents batch n) = [batch] := by
  induction n with
  | zero => rfl
  | succ n ih =>
    rw [cycleEvents, List.replicate_succ] at *
    simpa [successSends] using ih

/-- Distribution of `successSends` over concatenation. -/
theorem successSends_append (a b : List WorkerEvent) :
    successSends (a ++ b) = successSends a ++ successSends b := by
  induction a with
  | nil => rfl
  | cons e evs ih =>
    cases e with
    | send batch success => cases success <;> simp [successSends, ih]
    | wait ms => simp [successSends, ih]

/-- The successful sends of the expected trace are exactly the queue's
chunks, in order. -/
theorem successSends_expected : ∀ (q : List (List JSVal)) (fails : Nat → Nat),
    successSends (expectedEvents q fails) = chunks q
  | [], _ => by
    simp only [expectedEvents, chunks]
    rfl
  | x :: q, fails => by
    simp only [expectedEvents, chunks]
    rw [successSends_append, successSends_cycle,
      successSends_expected ((x :: q).drop DEEPINT_UPDATE_INSTANCES_LIMIT)
        (fun i => fails (i + 1))]
    rfl
termination_by q _ => q.length
decreasing_by
  simp [DEEPINT_UPDATE_INSTANCES_LIMIT]
  omega

/-- Concatenating the chunks restores the queue: no instance is dropped. -/
theorem chunks_flatten {α : Type} : ∀ q : List α, (chunks q).flatten = q
  | [] => by
    simp only [chunks]
    rfl
  | x :: q => by
    simp only [chunks, List.flatten_cons]
    rw [chunks_flatten ((x :: q).drop DEEPINT_UPDATE_INSTANCES_LIMIT)]
    exact List.take_append_drop _ _
termination_by q => q.length
decreasing_by
  simp [DEEPINT_UPDATE_INSTANCES_LIMIT]
  omega

/-- C5: when forward attempts fail, the worker waits a fixed 5000 ms and
retries the identical batch until an attempt succeeds (the closed form of
`retryLoop`); across cycles, the successful forwards are exactly the queue's
chunks in order — every accepted instance is forwarded (nothing dropped) and
no previously acknowledged batch is sent again. -/
theorem worker_retries_same_batch_until_success (q : List (List JSVal))
    (oc : Nat → List Bool) (fails : Nat → Nat)
    (hoc : ∀ i, oc i = List.replicate (fails i) false ++ [true]) :
    (∀ batch n, retryLoop batch (List.replicate n false ++ [true])
        = some (cycleEvents batch n))
      ∧ workerRun q oc = some (expectedEvents q fails)
      ∧ successSends (expectedEvents q fails) = chunks q
      ∧ (chunks q).flatten = q := by
  have hocf : oc = fun i => List.replicate (fails i) false ++ [true] := funext hoc
  refine ⟨fun batch n => retryLoop_shaped batch n, ?_, successSends_expected q fails,
    chunks_flatten q⟩
  rw [hocf]
  exact workerRun_shaped q fails

/-- Witness for C5: one queued instance, the first two attempts fail and the
third succeeds. -/
theorem worker_retries_same_batch_until_success_witness :
    (∀ i : Nat, (fun _ : Nat => [false, false, true]) i
        = List.replicate ((fun _ : Nat => 2) i) false ++ [true])
      ∧ ((∀ batch n, retryLoop batch (List.replicate n false ++ [true])
            = some (cycleEvents batch n))
        ∧ workerRun [[JSVal.vstr "r1"]] (fun _ => [false, false, true])
            = some (expectedEvents [[JSVal.vstr "r1"]] (fun _ => 2))
        ∧ successSends (expectedEvents [[JSVal.vstr "r1"]] (fun _ => 2))
            = chunks [[JSVal.vstr "r1"]]
        ∧ (chunks [[JSVal.vstr "r1"]]).flatten = [[JSVal.vstr "r1"]]) :=
  ⟨fun _ => rfl,
    worker_retries_same_batch_until_success [[JSVal.vstr "r1"]]
      (fun _ => [false, false, true]) (fun _ => 2) (fun _ => rfl)⟩

/-! ### The streaming query executor's promise (`source.ts`, `query`) -/

/-- The outcome of the promise returned by `query`: rejected with an error,
or resolved after delivering a list of rows through `onRow`. -/
inductive QueryOutcome (ρ : Type) where
  | rejected (err : String)
  | resolved (rows : List ρ)

/-- The cursor pump of `query`: each oracle entry is one `cursor.read`
result.  An error is turned into an empty batch (`if (err) return
resolve([])`), and an empty batch ends the loop; rows of non-empty batches
are delivered and the loop continues.  An exhausted oracle is an ended
cursor. -/
def queryCursorLoop {ρ : Type} : List (Except String (List ρ)) → List ρ
  | [] => []
  | .error _ :: _ => []
  | .ok [] :: _ => []
  | .ok (r :: rs) :: rest => (r :: rs) ++ queryCursorLoop rest

/-- The promise of `query`, driven by the pool-connection result and the
cursor-read oracle: only `pool.connect()` failure rejects; after a
successful connection the executor loops over cursor batches and resolves. -/
def queryOutcome {ρ : Type} (connect : Except String Unit)
    (reads : List (Except String (List ρ))) : QueryOutcome ρ :=
  match connect with
  | .error e => .rejected e
  | .ok _ => .resolved (queryCursorLoop reads)

/-- C6 counterexample: with a successful connection and a first cursor read
that errors, the promise resolves (with no rows) instead of rejecting. -/
theorem query_cursor_error_resolves :
    queryOutcome (ρ := Nat) (.ok ()) [.error "boom"] = .resolved [] := rfl

/-- C6 (amended): a failure to obtain a pool connection rejects the promise
with that error, with no retry; after a successful connection the promise
always resolves — an error during a cursor batch read is swallowed (the
read is treated as an empty batch), ending the stream early. -/
theorem query_error_propagation (ρ : Type) (e : String)
    (reads rest : List (Except String (List ρ))) :
    queryOutcome (.error e) reads = .rejected e
      ∧ (∃ delivered, queryOutcome (.ok ()) reads = .resolved delivered)
      ∧ queryCursorLoop (.error e :: rest) = ([] : List ρ)
      ∧ queryCursorLoop (.ok [] :: rest) = ([] : List ρ) :=
  ⟨rfl, ⟨queryCursorLoop reads, rfl⟩, rfl, rfl⟩

/-! ### Filter sanitization (`sanitizeQueryTree` of `deepint-sources.ts`) -/

/-- Constant `QUERY_TREE_MAX_DEPH` of the source (name sic). -/
def QUERY_TREE_MAX_DEPH : Nat := 4

/-- Constant `QUERY_TREE_MAX_CHILDREN` of the source. -/
def QUERY_TREE_MAX_CHILDREN : Nat := 16

/-- The scalar part of sanitization: the coerced `type`, `operation`, `left`
and `right`, read from four properties of an object-typed value.  `left`
keeps only numbers (floored); `right` keeps `null` distinct and truncates
strings to 1024 characters; unknown types become `anyof`, unknown operations
the empty no-op. -/
def sanitizeScalars (H : Host) (pty pop pleft pright : JSVal) :
    String × String × Int × Option String :=
  let ty0 := jsToLower (jsToStr H pty)
  let ty := if ty0 = "single" ∨ ty0 = "one" ∨ ty0 = "anyof" ∨ ty0 = "allof"
      ∨ ty0 = "not" then ty0 else "anyof"
  let op0 := jsToLower (jsToStr H pop)
  let op := if op0 = "null" ∨ op0 = "eq" ∨ op0 = "lt" ∨ op0 = "le" ∨ op0 = "lte"
      ∨ op0 = "gt" ∨ op0 = "ge" ∨ op0 = "gte" ∨ op0 = "cn" ∨ op0 = "cni"
      ∨ op0 = "sw" ∨ op0 = "swi" ∨ op0 = "ew" ∨ op0 = "ewi"
    then op0 else ""
  let left : Int :=
    match pleft with
    | .vnum q => ⌊q⌋
    | .vnan => -1
    | _ => -1
  let right : Option String :=
    match pright with
    | .vnull => none
    | v => some (jsSubstr (jsToStr H v) 1024)
  (ty, op, left, right)

mutual

/-- Embedding of `sanitizeQueryTree(tree, depth)` of `deepint-sources.ts`.  `none` models
a thrown `TypeError`: JavaScript's `typeof null === "object"` lets `null`
past the object guard, and reading `null.type` then throws.  Dates and
arrays are also `typeof "object"`; the five properties the sanitizer reads
off them are all `undefined`.  Any non-object input skips the whole body and
returns the initial default tree.  Recursion into children happens only
below the depth bound, for composite sanitized types, and only when the
`children` property is an array. -/
def sanitizeQueryTree (H : Host) : JSVal → Nat → Option QueryTree
  | .vnull, _ => none
  | .vobj pty pop pleft pright (.varr xs), depth =>
    match sanitizeScalars H pty pop pleft pright with
    | (ty, op, left, right) =>
      if depth < QUERY_TREE_MAX_DEPH ∧ (ty = "anyof" ∨ ty = "allof" ∨ ty = "not")
      then
        match sanitizeChildren H xs QUERY_TREE_MAX_CHILDREN depth with
        | none => none
        | some cs => some (.mk ty op left right cs)
      else some (.mk ty op left right [])
  | .vobj pty pop pleft pright _, _ =>
    match sanitizeScalars H pty pop pleft pright with
    | (ty, op, left, right) => some (.mk ty op left right [])
  | .varr _, _ => some (.mk "anyof" "" (-1) (some "undefined") [])
  | .vdate _, _ => some (.mk "anyof" "" (-1) (some "undefined") [])
  | _, _ => some (.mk "anyof" "" (-1) (some "") [])

/-- The children loop `for (i = 0; i < children.length && i < 16; i++)`,
with the remaining allowance as the middle argument; a throw in any child
propagates. -/
def sanitizeChildren (H : Host) : List JSVal → Nat → Nat → Option (List QueryTree)
  | [], _, _ => some []
  | _ :: _, 0, _ => some []
  | x :: xs, n + 1, depth =>
    match sanitizeQueryTree H x (depth + 1) with
    | none => none
    | some c =>
      match sanitizeChildren H xs n depth with
      | none => none
      | some rest => some (c :: rest)

end

/-- C2 evaluated at failing inputs: sanitizing the JavaScript value `null`
itself throws (`typeof null === "object"`, then `null.type` is read), and so
does sanitizing a well-formed `anyof` object one of whose children is
`null` — instead of returning a tree without failing. -/
theorem sanitizeQueryTree_throws_on_null :
    sanitizeQueryTree H0 .vnull 0 = none
      ∧ sanitizeQueryTree H0
          (.vobj (.vstr "anyof") .vundefined .vundefined .vundefined (.varr [.vnull])) 0
        = none := by
  constructor
  · simp [sanitizeQueryTree]
  · have hs : sanitizeScalars H0 (.vstr "anyof") .vundefined .vundefined .vundefined
        = ("anyof", "", -1, some "undefined") := by
      simp only [sanitizeScalars]
      rw [show jsToStr H0 (JSVal.vstr "anyof") = "anyof" from by simp [jsToStr],
        show jsToStr H0 JSVal.vundefined = "undefined" from by simp [jsToStr]]
      decide
    have hc : sanitizeChildren H0 [JSVal.vnull] QUERY_TREE_MAX_CHILDREN 0 = none := by
      show sanitizeChildren H0 [JSVal.vnull] (15 + 1) 0 = none
      rw [sanitizeChildren]
      rw [show sanitizeQueryTree H0 JSVal.vnull (0 + 1) = none from by
        simp [sanitizeQueryTree]]
    rw [sanitizeQueryTree, hs]
    simp only []
    rw [if_pos (by decide), hc]
